import Mathlib

/-!
Verification development for the `bwp` scrapy spiders
(`bwp/spiders/pipelines.py`, `bwp/spiders/bwpipelines.py`, `bwp/spiders/ferc.py`).

Strings are embedded as `List Char` (named `Str`).  Python string operations
used by the source (`str.split`, `str.strip` with a character set,
`re.search` on the three literal-prefix patterns appearing in the source)
are embedded as executable functions below.  The regex patterns of the
source have the form `LITERAL(.*)SUFFIX`: `re.search` on such a pattern
returns the text between the first occurrence of the literal prefix and the
last following occurrence of the suffix (greedy `.*`); that behaviour is
embedded directly.  Python's `.` does not match a newline; none of the
inputs considered here contain newlines inside the matched region.
-/

abbrev Str := List Char

/-- Characters stripped by Python's `strip("\"' ")` in `_extract_link_args`. -/
def stripP (c : Char) : Bool := decide (c = '"') || decide (c = '\'') || decide (c = ' ')

/-- ASCII whitespace stripped by Python's bare `.strip()` (as used on anchor
text, class attributes and dates; the source never feeds it non-ASCII
whitespace). -/
def isPySpace (c : Char) : Bool :=
  decide (c = ' ') || decide (c = '\t') || decide (c = '\n') || decide (c = '\r') ||
    decide (c = Char.ofNat 11) || decide (c = Char.ofNat 12)

/-- Characters stripped by `strip("\r\n \"'")` in `FercSpider._scrap_checksum`. -/
def ckStripP (c : Char) : Bool :=
  decide (c = '\r') || decide (c = '\n') || decide (c = ' ') || decide (c = '"') ||
    decide (c = '\'')

/-- Python `s.strip(chars)`: drop characters satisfying `p` from both ends. -/
def stripSet (p : Char → Bool) (s : Str) : Str :=
  ((s.dropWhile p).reverse.dropWhile p).reverse

def pyStrip (s : Str) : Str := stripSet isPySpace s

def stripQS (s : Str) : Str := stripSet stripP s

def ckStrip (s : Str) : Str := stripSet ckStripP s

/-- Boolean prefix test on `List Char`. -/
def pfx : Str → Str → Bool
  | [], _ => true
  | _ :: _, [] => false
  | a :: as, b :: bs => decide (a = b) && pfx as bs

/-- The text after the first occurrence of `pat` in `s` (`none` when `pat`
does not occur).  This is the remainder that a `re.search` whose pattern
starts with the literal `pat` continues matching from. -/
def afterFirst (pat : Str) : Str → Option Str
  | [] => if pat = [] then some [] else none
  | c :: rest =>
    if pfx pat (c :: rest) then some ((c :: rest).drop pat.length)
    else afterFirst pat rest

/-- Substring test (Python's `in` on strings). -/
def containsSub (pat s : Str) : Bool := (afterFirst pat s).isSome

/-- The text before the last occurrence of `pat` in `s`. -/
def beforeLast (pat s : Str) : Option Str :=
  (afterFirst pat.reverse s.reverse).map List.reverse

/-- `re.search` for a pattern `pre(.*)post` made of a literal prefix, a greedy
group and a literal suffix: the group is the text between the first
occurrence of `pre` and the last following occurrence of `post`. -/
def searchGroup (pre post s : Str) : Option Str :=
  (afterFirst pre s).bind (fun t => beforeLast post t)

/-- Python `s.split(sep)` for a one-character separator: always returns at
least one piece, and an empty string splits to `[""]`. -/
def splitOnChar (sep : Char) : Str → List Str
  | [] => [[]]
  | c :: rest =>
    if c = sep then [] :: splitOnChar sep rest
    else
      match splitOnChar sep rest with
      | [] => [[c]]
      | t :: ts => (c :: t) :: ts

/-- Literal prefix of the first pattern of `_extract_link_args`
(`javascript:WebForm_DoPostBackWithOptions\(new WebForm_PostBackOptions\((.*)\)\)`). -/
def OPTPRE : Str := "javascript:WebForm_DoPostBackWithOptions(new WebForm_PostBackOptions(".data

/-- Literal suffix of the first pattern. -/
def OPTPOST : Str := "))".data

/-- Literal prefix of the second pattern (`javascript:__doPostBack\((.*)\)`). -/
def DOPRE : Str := "javascript:__doPostBack(".data

/-- Literal suffix of the second pattern. -/
def CLOSEP : Str := ")".data

/-- `PipelinesSpider._extract_link_args` / `BWPipelinesSpider._extract_link_args`:
`None` and the empty string are falsy and yield `[]`; otherwise the
options-object pattern is searched first, then the direct `__doPostBack`
pattern; the matched group is split on commas and every token is stripped of
surrounding quotes and spaces; no match yields `[]`. -/
def extract_link_args (js_link : Option Str) : List Str :=
  match js_link with
  | none => []
  | some s =>
    if s = [] then []
    else
      match searchGroup OPTPRE OPTPOST s with
      | some g => (splitOnChar ',' g).map stripQS
      | none =>
        match searchGroup DOPRE CLOSEP s with
        | some g => (splitOnChar ',' g).map stripQS
        | none => []

/-- One step of a Python dict insertion (`d[k] = v` or a dict-comprehension
step): an existing key keeps its position and gets the new value, a new key
is appended. -/
def dictInsert (m : List (Str × Str)) (k v : Str) : List (Str × Str) :=
  match m with
  | [] => [(k, v)]
  | (a, b) :: rest => if a = k then (a, v) :: rest else (a, b) :: dictInsert rest k v

/-- Dict lookup. -/
def dlookup : List (Str × Str) → Str → Option Str
  | [], _ => none
  | (a, b) :: rest, k => if a = k then some b else dlookup rest k

/-- One step of the `form_data` dict comprehension: the key is the hidden
input's required `name` attribute, the value is `attrib.get("value", "")`. -/
def fdStep (m : List (Str × Str)) (f : Str × Option Str) : List (Str × Str) :=
  dictInsert m f.1 (f.2.getD [])

/-- The `form_data` dict comprehension of `parse`
(`{field.attrib["name"]: field.attrib.get("value", "") for field in hidden_inputs}`):
`hidden_inputs` is every `//input[@type='hidden']` of the document in document
order, given here as `(name, optional value attribute)` pairs; the `name`
attribute is required by the source (`attrib["name"]`). -/
def buildFormData (inputs : List (Str × Option Str)) : List (Str × Str) :=
  inputs.foldl fdStep []

def EVENTTARGET : Str := "__EVENTTARGET".data

def EVENTARGUMENT : Str := "__EVENTARGUMENT".data

/-- `{**form_data, "__EVENTTARGET": t, "__EVENTARGUMENT": a}` (also the two
mutating assignments before the next-page request, which have the same
effect on the submitted payload). -/
def setEvent (fd : List (Str × Str)) (t a : Str) : List (Str × Str) :=
  dictInsert (dictInsert fd EVENTTARGET t) EVENTARGUMENT a

/-- One table cell's anchor as seen by the row loop: the raw `@href`, the
first text node and the `@class` attribute (each `none` when absent). -/
structure CellInput where
  href : Option Str
  text : Option Str
  cls : Option Str
deriving DecidableEq

/-- One `dgITMatrix_`-row: document cell (`td[1]`), date text (`td[2]`),
spreadsheet cell (`td[3]`). -/
structure RowInput where
  pdfCell : CellInput
  dateText : Option Str
  excelCell : CellInput
deriving DecidableEq

/-- One fetched page as seen by `parse`: the hidden inputs, the matched table
rows, and the `@href` of the first-row anchor whose lower-cased text contains
"next" (`none` when the XPath matches nothing). -/
structure PageInput where
  hidden : List (Str × Option Str)
  rows : List RowInput
  nextHref : Option Str
deriving DecidableEq

/-- `response.urljoin` applied to the anchors' `javascript:` pseudo-URLs:
a reference carrying its own scheme is returned unchanged by `urljoin`, so on
the inputs the source feeds it this is the identity. -/
def urljoinModel (h : Str) : Str := h

/-- `link = row.xpath(...).get()` followed by
`link = response.urljoin(link) if link else None`: an absent or empty href
becomes `None`. -/
def normLink (h : Option Str) : Option Str :=
  match h with
  | none => none
  | some s => if s = [] then none else some (urljoinModel s)

/-- `_get_file_name`: strip the anchor's first text node and its `class`
attribute (absent ones read as `""`), drop empty parts and join with `"."`. -/
def get_file_name (text cls : Option Str) : Str :=
  let t := pyStrip (text.getD [])
  let k := pyStrip (cls.getD [])
  if t = [] then k else if k = [] then t else t ++ '.' :: k

/-- `upload_date = upload_date.strip() if upload_date else None`
(an empty string is falsy). -/
def normDate (d : Option Str) : Option Str :=
  match d with
  | none => none
  | some s => if s = [] then none else some (pyStrip s)

/-- The `pdf`/`excel` sub-dictionary of a metadata entry. -/
structure SubRec where
  name : Str
  link_args : List Str
deriving DecidableEq

/-- One metadata entry appended to `self.metadata` per table row. -/
structure Entry where
  index : Nat
  pdf : SubRec
  upload_date : Option Str
  excel : SubRec
deriving DecidableEq

/-- The metadata entry built for row number `idx` (identical in both spider
variants). -/
def mkEntry (idx : Nat) (row : RowInput) : Entry :=
  { index := idx
    pdf := { name := get_file_name row.pdfCell.text row.pdfCell.cls
             link_args := extract_link_args (normLink row.pdfCell.href) }
    upload_date := normDate row.dateText
    excel := { name := get_file_name row.excelCell.text row.excelCell.cls
               link_args := extract_link_args (normLink row.excelCell.href) } }

/-- The runtime error raised by Python when `args[0]` or `args[1]` is
evaluated on a too-short list. -/
inductive PyErr where
  | indexError
deriving DecidableEq

/-- One yielded `scrapy.FormRequest` fetching an artifact: the submitted form
payload and the `meta["file_name"]` label. -/
structure DownloadReq where
  formdata : List (Str × Str)
  fileName : Str
deriving DecidableEq

/-- The two duplicated spider variants. -/
inductive Variant where
  | pipelines
  | bw
deriving DecidableEq

/-- One guarded download-request block of the row loop
(`if <link>: yield FormRequest(formdata={**form_data, "__EVENTTARGET": args[0],
"__EVENTARGUMENT": args[1]}, meta={"file_name": name})`): indexing an
argument list with fewer than two elements raises `IndexError` before
anything is yielded. -/
def condReq (guard : Bool) (args : List Str) (nm : Str) (fd : List (Str × Str)) :
    List DownloadReq × Option PyErr :=
  if guard then
    match args with
    | t :: a :: _ => ([⟨setEvent fd t a, nm⟩], none)
    | _ => ([], some .indexError)
  else ([], none)

/-- The body of the row loop for one row: builds the metadata entry, then
runs the two guarded download blocks.  `pipelines.py` guards on the document
link but submits the spreadsheet's `(target, argument)` pair under the
spreadsheet's name, and vice versa; `bwpipelines.py` pairs each artifact's
guard with its own arguments and name.  Returns the entry, the requests
yielded before any error, and the error if one was raised. -/
def processRow (v : Variant) (fd : List (Str × Str)) (idx : Nat) (row : RowInput) :
    Entry × List DownloadReq × Option PyErr :=
  let pdf_link := normLink row.pdfCell.href
  let pdf_name := get_file_name row.pdfCell.text row.pdfCell.cls
  let excel_link := normLink row.excelCell.href
  let excel_name := get_file_name row.excelCell.text row.excelCell.cls
  let pdf_args := extract_link_args pdf_link
  let excel_args := extract_link_args excel_link
  let entry := mkEntry idx row
  let first :=
    match v with
    | .pipelines => condReq pdf_link.isSome excel_args excel_name fd
    | .bw => condReq excel_link.isSome excel_args excel_name fd
  match first.2 with
  | some e => (entry, first.1, some e)
  | none =>
    let second :=
      match v with
      | .pipelines => condReq excel_link.isSome pdf_args pdf_name fd
      | .bw => condReq pdf_link.isSome pdf_args pdf_name fd
    (entry, first.1 ++ second.1, second.2)

/-- The row loop (`for index, row in enumerate(table_rows, start=1)`): rows
are processed in order with 1-based indices; an uncaught `IndexError` stops
the generator, keeping the entries appended and requests yielded so far. -/
def processRows (v : Variant) (fd : List (Str × Str)) :
    Nat → List RowInput → List Entry × List DownloadReq × Option PyErr
  | _, [] => ([], [], none)
  | idx, r :: rs =>
    let step := processRow v fd idx r
    match step.2.2 with
    | some e => ([step.1], step.2.1, some e)
    | none =>
      let rest := processRows v fd (idx + 1) rs
      (step.1 :: rest.1, step.2.1 ++ rest.2.1, rest.2.2)

/-- What happens after the row loop: either the next-page `FormRequest` is
yielded with the shown payload (and `page_index` is incremented), or the
step dies with an uncaught error. -/
inductive Outcome where
  | nextReq (fd : List (Str × Str))
  | crash (e : PyErr)
deriving DecidableEq

/-- The next-page block of `parse`: `next_page_args = _extract_link_args(next_page_href)`
then `form_data["__EVENTTARGET"] = next_page_args[0]` and
`form_data["__EVENTARGUMENT"] = next_page_args[1]` — indexing raises
`IndexError` when fewer than two arguments were extracted (in particular
when no "next" anchor was found and the list is empty). -/
def nextPhase (fd : List (Str × Str)) (nextHref : Option Str) : Outcome :=
  match extract_link_args nextHref with
  | t :: a :: _ => .nextReq (setEvent fd t a)
  | _ => .crash .indexError

/-- Everything one invocation of `parse` produces. -/
structure ParseResult where
  entries : List Entry
  reqs : List DownloadReq
  outcome : Outcome
deriving DecidableEq

/-- One invocation of `PipelinesSpider.parse` / `BWPipelinesSpider.parse` as a
pure function of the configured window, the current `page_index` and the
fetched page: capture the hidden-field snapshot, run the row loop only when
`from_page <= page_index < to_page`, then always attempt the next-page
postback (a loop error propagates out of the generator first). -/
def parseStep (v : Variant) (fromPage toPage pageIndex : Nat) (inp : PageInput) :
    ParseResult :=
  let fd := buildFormData inp.hidden
  if fromPage ≤ pageIndex ∧ pageIndex < toPage then
    let loop := processRows v fd 1 inp.rows
    match loop.2.2 with
    | some e => ⟨loop.1, loop.2.1, .crash e⟩
    | none => ⟨loop.1, loop.2.1, nextPhase fd inp.nextHref⟩
  else ⟨[], [], nextPhase fd inp.nextHref⟩

/-- `re.sub(r'[\\/:"*?<>|]', "_", name)`: replace every reserved character
with an underscore. -/
def sanitize (s : Str) : Str :=
  s.map (fun c =>
    if c = '\\' ∨ c = '/' ∨ c = ':' ∨ c = '"' ∨ c = '*' ∨ c = '?' ∨ c = '<' ∨ c = '>' ∨ c = '|'
    then '_' else c)

/-- The extension part of `os.path.splitext` (CPython `genericpath._splitext`
for a `/` separator): the suffix from the last dot of the basename, unless
every character before that dot in the basename is itself a dot. -/
def extOf (s : Str) : Str :=
  let b := ((splitOnChar '/' s).getLast?).getD s
  match beforeLast ['.'] b with
  | none => []
  | some pre => if pre.any (fun c => decide (c ≠ '.')) then b.drop pre.length else []

/-- `content_type.split(";")[0]`: the media-type token with parameters
stripped. -/
def typeToken (ct : Str) : Str := ((splitOnChar ';' ct).headI)

/-- Modelled from the Python standard library's `mimetypes.guess_extension`
(external to this repository): the conventional extension for the media
types exercised by these spiders, `none` when no mapping is known. -/
def mimetypes_guess_extension (t : Str) : Option Str :=
  if t = "application/pdf".data then some ".pdf".data
  else if t = "application/vnd.ms-excel".data then some ".xls".data
  else if t = "application/vnd.openxmlformats-officedocument.spreadsheetml.sheet".data then
    some ".xlsx".data
  else if t = "text/html".data then some ".html".data
  else none

/-- The extension-inference block of `BWPipelinesSpider._download_file`:
only when the (sanitized) name has no extension, look up the `Content-Type`'s
type token and append the guessed extension when one is known. -/
def applyExtension (nm ct : Str) : Str :=
  if extOf nm = [] then
    match mimetypes_guess_extension (typeToken ct) with
    | some e => nm ++ e
    | none => nm
  else nm

def FILENAMEEQ : Str := "filename=".data

def FILENAMEPAT : Str := "filename".data

/-- The literal `UTF-8''` of the filename regex. -/
def UTF8PFX : Str := "UTF-8".data ++ ['\'', '\'']

/-- The greedy `([^"\']+)` group: the maximal run of non-quote characters. -/
def captureRun (s : Str) : Str :=
  s.takeWhile (fun c => !(decide (c = '"') || decide (c = '\'')))

/-- Backtracking states of the optional `(?:UTF-8\'\')?`:
greedy first (consume the literal when present), then empty. -/
def utfCands (x : Str) : List Str :=
  if pfx UTF8PFX x then [x.drop UTF8PFX.length, x] else [x]

/-- Backtracking states of `["\']?(?:UTF-8\'\')?` applied after `=`:
the rightmost optional backtracks first. -/
def afterEqCands (r : Str) : List Str :=
  (match r with
   | c :: rest => if decide (c = '"') || decide (c = '\'') then utfCands rest else []
   | [] => []) ++ utfCands r

/-- First backtracking state whose capture group is non-empty. -/
def firstCapture : List Str → Option Str
  | [] => none
  | x :: xs =>
    let c := captureRun x
    if c = [] then firstCapture xs else some c

def afterEqCapture (r : Str) : Option Str := firstCapture (afterEqCands r)

/-- Matching of `\*?=["\']?(?:UTF-8\'\')?([^"\']+)` after the literal
`filename`. -/
def matchAfterFilename : Str → Option Str
  | '*' :: '=' :: r => afterEqCapture r
  | '=' :: r => afterEqCapture r
  | _ => none

/-- `re.search(r'filename\*?=["\']?(?:UTF-8\'\')?([^"\']+)', cd)`: scan for
the leftmost position where the pattern matches and return the capture
group. -/
def cdCapture : Str → Option Str
  | [] => none
  | c :: rest =>
    match (if pfx FILENAMEPAT (c :: rest)
           then matchAfterFilename ((c :: rest).drop FILENAMEPAT.length)
           else none) with
    | some g => some g
    | none => cdCapture rest

/-- The fixed default of `response.meta.get("file_name", "downloaded_file")`. -/
def DEFAULTNAME : Str := "downloaded_file".data

/-- The filename-resolution part of `BWPipelinesSpider._download_file`:
the `Content-Disposition` regex is only tried when the header contains the
literal substring `filename=`; a falsy result (absent or empty) falls back to
`response.meta.get("file_name", "downloaded_file")`, whose default applies
only when the `file_name` key is absent (`meta = none`). -/
def resolveRaw (cd : Str) (meta : Option Str) : Str :=
  match (if containsSub FILENAMEEQ cd then cdCapture cd else none) with
  | some f => if f = [] then meta.getD DEFAULTNAME else f
  | none => meta.getD DEFAULTNAME

/-- The resolved filename after the unconditional sanitization. -/
def preExtName (cd : Str) (meta : Option Str) : Str := sanitize (resolveRaw cd meta)

/-- The filename computed by `BWPipelinesSpider._download_file` from the
`Content-Disposition` header (`""` when absent), the `meta["file_name"]`
entry (`none` when the key is absent) and the `Content-Type` header (`""`
when absent). -/
def download_file_name (cd : Str) (meta : Option Str) (ct : Str) : Str :=
  applyExtension (preExtName cd meta) ct

/-- `FercSpider._scrap_checksum` as a function of the designated text area's
text (`none` when the XPath matches nothing): a missing or falsy value logs
and yields no item, otherwise exactly one `CheckSum` item with the stripped
text is yielded. -/
def scrap_checksum (checksum : Option Str) : List Str :=
  match checksum with
  | none => []
  | some s => if s = [] then [] else [ckStrip s]

/-- `javascript:__doPostBack('t','a')` built from its two argument strings. -/
def mkDo (t a : Str) : Str :=
  DOPRE ++ ((('\'' :: (t ++ ['\''])) ++ ',' :: ('\'' :: (a ++ ['\'']))) ++ CLOSEP)

/-- A direct `__doPostBack` call with a single unquoted token. -/
def mkDo1 (t : Str) : Str := DOPRE ++ (t ++ CLOSEP)

/-- The flat argument body of a seven-argument `WebForm_PostBackOptions`
constructor call: `"t", "a", true, "", "", false, true`. -/
def optBody (t a : Str) : Str :=
  ('"' :: t ++ ['"']) ++ ',' :: ((' ' :: '"' :: a ++ ['"']) ++
    ',' :: " true, \"\", \"\", false, true".data)

/-- A full options-object postback call with seven constructor arguments. -/
def mkOpt (t a : Str) : Str := OPTPRE ++ (optBody t a ++ OPTPOST)

/-- Characters that keep a constructed token inert for splitting and
stripping: not a comma, quote or space. -/
def okC (c : Char) : Bool :=
  decide (c ≠ ',' ∧ c ≠ '"' ∧ c ≠ '\'' ∧ c ≠ ' ')

/-- Fixture hidden fields. -/
def hidden0 : List (Str × Option Str) :=
  [("__VIEWSTATE".data, some "VS".data), ("__EVENTVALIDATION".data, some "EV".data)]

/-- Fixture row: a document postback link with a display name, and no
spreadsheet anchor at all. -/
def rowDocOnly : RowInput :=
  { pdfCell := { href := some (mkDo "ctl02$lnkDoc".data []), text := some "Report 1".data,
                 cls := none }
    dateText := some "01/02/2024".data
    excelCell := { href := none, text := none, cls := none } }

/-- Fixture page: one document-only row and a recognizable next-page anchor. -/
def pageDocOnly : PageInput :=
  { hidden := hidden0
    rows := [rowDocOnly]
    nextHref := some (mkDo "dgITMatrix$ctl01".data "Page$2".data) }

/-- Fixture page with no "next" anchor in the first row. -/
def pageNoNext : PageInput := { hidden := hidden0, rows := [], nextHref := none }

/-- Fixture row whose document cell has a class attribute but no text, href
or spreadsheet data. -/
def rowClassOnly : RowInput :=
  { pdfCell := { href := none, text := none, cls := some "docLink".data }
    dateText := none
    excelCell := { href := none, text := none, cls := none } }

/-- Fixture row with nothing in any cell. -/
def rowEmpty : RowInput :=
  { pdfCell := { href := none, text := none, cls := none }
    dateText := none
    excelCell := { href := none, text := none, cls := none } }

/-- The `Content-Disposition` header of the harvester example. -/
def cdExample : Str := "attachment; filename=\"a/b:c.xlsx\"".data

/-! ### Helper lemmas on the string utilities -/

theorem append_ne_nil_left {α : Type} {l₁ l₂ : List α} (h : l₁ ≠ []) : l₁ ++ l₂ ≠ [] := by
  cases l₁ with
  | nil => exact absurd rfl h
  | cons a as => simp

theorem pfx_append (p r : Str) : pfx p (p ++ r) = true := by
  induction p with
  | nil => simp [pfx]
  | cons a as ih => simp [pfx, ih]

theorem afterFirst_on_self (p r : Str) : afterFirst p (p ++ r) = some r := by
  cases p with
  | nil =>
    cases r with
    | nil => simp [afterFirst]
    | cons c rest => simp [afterFirst, pfx]
  | cons a as =>
    have hp : pfx (a :: as) ((a :: as) ++ r) = true := pfx_append (a :: as) r
    have step : afterFirst (a :: as) ((a :: as) ++ r)
        = if pfx (a :: as) ((a :: as) ++ r) then some (((a :: as) ++ r).drop (a :: as).length)
          else afterFirst (a :: as) (as ++ r) := rfl
    rw [step, if_pos hp, List.drop_left]

theorem beforeLast_append (pat t : Str) : beforeLast pat (t ++ pat) = some t := by
  unfold beforeLast
  rw [List.reverse_append, afterFirst_on_self]
  simp

theorem all_imp {p q : Char → Bool} (h : ∀ c, p c = true → q c = true) {l : Str}
    (hl : l.all p = true) : l.all q = true := by
  rw [List.all_eq_true] at hl ⊢
  exact fun c hc => h c (hl c hc)

theorem dropWhile_append_all {p : Char → Bool} {l : Str} (x : Str) (h : l.all p = true) :
    (l ++ x).dropWhile p = x.dropWhile p := by
  induction l with
  | nil => rfl
  | cons a as ih =>
    simp only [List.all_cons, Bool.and_eq_true] at h
    simp [List.dropWhile, h.1, ih h.2]

theorem dropWhile_all {p : Char → Bool} {l : Str} (h : l.all p = true) :
    l.dropWhile p = [] := by
  have := dropWhile_append_all (p := p) (l := l) [] h
  simpa using this

theorem dropWhile_none {p : Char → Bool} {l : Str} (h : l.all (fun c => !(p c)) = true) :
    l.dropWhile p = l := by
  cases l with
  | nil => rfl
  | cons a as =>
    simp only [List.all_cons, Bool.and_eq_true, Bool.not_eq_true'] at h
    simp [List.dropWhile, h.1]

theorem strip_wrap {p : Char → Bool} (l t r : Str) (hl : l.all p = true)
    (hr : r.all p = true) (ht : t.all (fun c => !(p c)) = true) :
    stripSet p (l ++ t ++ r) = t := by
  unfold stripSet
  rw [List.append_assoc, dropWhile_append_all (t ++ r) hl]
  cases t with
  | nil =>
    simp only [List.nil_append]
    rw [dropWhile_all hr]
    rfl
  | cons c t' =>
    simp only [List.all_cons, Bool.and_eq_true, Bool.not_eq_true'] at ht
    have hrall : r.reverse.all p = true := by
      rw [List.all_eq_true] at hr ⊢
      intro x hx
      exact hr x (List.mem_reverse.mp hx)
    have ht'all : (t'.reverse ++ [c]).all (fun x => !(p x)) = true := by
      rw [List.all_eq_true]
      intro x hx
      rcases List.mem_append.mp hx with hx | hx
      · rw [List.all_eq_true] at ht
        exact (by simpa using ht.2 x (List.mem_reverse.mp hx))
      · simp only [List.mem_singleton] at hx
        subst hx
        simp [ht.1]
    have h1 : List.dropWhile p ((c :: t') ++ r) = (c :: t') ++ r := by
      rw [List.cons_append, List.dropWhile_cons, ht.1]
      simp
    rw [h1, List.cons_append, List.reverse_cons, List.reverse_append, List.append_assoc,
      dropWhile_append_all _ hrall, dropWhile_none ht'all]
    simp

theorem splitOnChar_no_sep {sep : Char} {t : Str} (h : t.all (fun c => decide (c ≠ sep)) = true) :
    splitOnChar sep t = [t] := by
  induction t with
  | nil => rfl
  | cons c rest ih =>
    simp only [List.all_cons, Bool.and_eq_true, decide_eq_true_eq] at h
    simp [splitOnChar, h.1, ih h.2]

theorem splitOnChar_append {sep : Char} {t : Str} (u : Str)
    (h : t.all (fun c => decide (c ≠ sep)) = true) :
    splitOnChar sep (t ++ sep :: u) = t :: splitOnChar sep u := by
  induction t with
  | nil => simp [splitOnChar]
  | cons c rest ih =>
    simp only [List.all_cons, Bool.and_eq_true, decide_eq_true_eq] at h
    simp [List.cons_append, splitOnChar, h.1, ih h.2]

theorem OPTPRE_ne_nil : OPTPRE ≠ [] := by decide

theorem DOPRE_ne_nil : DOPRE ≠ [] := by decide

/-! ### Helper lemmas on the form-state dictionary -/

theorem dlookup_dictInsert (m : List (Str × Str)) (k v n : Str) :
    dlookup (dictInsert m k v) n = if k = n then some v else dlookup m n := by
  induction m with
  | nil => simp [dictInsert, dlookup]
  | cons hd tl ih =>
    obtain ⟨a, b⟩ := hd
    by_cases hak : a = k
    · subst hak
      simp only [dictInsert, if_pos rfl, dlookup]
      by_cases han : a = n
      · simp [han]
      · simp [han]
    · simp only [dictInsert, if_neg hak, dlookup]
      by_cases han : a = n
      · subst han
        have hkn : ¬ (k = a) := fun h => hak h.symm
        simp [hkn]
      · simp [han, ih]

theorem keys_dictInsert (m : List (Str × Str)) (k v : Str) :
    (dictInsert m k v).map Prod.fst =
      if k ∈ m.map Prod.fst then m.map Prod.fst else m.map Prod.fst ++ [k] := by
  induction m with
  | nil => simp [dictInsert]
  | cons hd tl ih =>
    obtain ⟨a, b⟩ := hd
    by_cases hak : a = k
    · subst hak
      simp [dictInsert]
    · simp only [dictInsert, if_neg hak, List.map_cons]
      by_cases hk : k ∈ tl.map Prod.fst
      · have : k ∈ (a, b).1 :: tl.map Prod.fst := List.mem_cons_of_mem _ hk
        simp only [ih, if_pos hk]
        simp [hk]
      · have hknot : ¬ k ∈ ((a, b) :: tl).map Prod.fst := by
          simp only [List.map_cons, List.mem_cons]
          push_neg
          exact ⟨fun h => hak h.symm, hk⟩
        simp only [ih, if_neg hk]
        simp only [List.map_cons] at hknot
        simp [hknot]

theorem nodup_keys_dictInsert (m : List (Str × Str)) (k v : Str)
    (h : (m.map Prod.fst).Nodup) : ((dictInsert m k v).map Prod.fst).Nodup := by
  rw [keys_dictInsert]
  by_cases hk : k ∈ m.map Prod.fst
  · simpa [hk] using h
  · rw [if_neg hk]
    rw [List.nodup_append]
    refine ⟨h, List.nodup_singleton k, ?_⟩
    intro a ha hb
    rw [List.mem_singleton] at hb
    subst hb
    exact hk ha

theorem mem_keys_dictInsert (m : List (Str × Str)) (k v n : Str) :
    n ∈ (dictInsert m k v).map Prod.fst ↔ n = k ∨ n ∈ m.map Prod.fst := by
  rw [keys_dictInsert]
  by_cases hk : k ∈ m.map Prod.fst
  · rw [if_pos hk]
    constructor
    · exact Or.inr
    · rintro (rfl | h)
      · exact hk
      · exact h
  · rw [if_neg hk]
    simp [List.mem_append, or_comm]

theorem dlookup_foldl (inputs : List (Str × Option Str)) :
    ∀ (m : List (Str × Str)) (n : Str),
      dlookup (inputs.foldl fdStep m) n =
        match inputs.reverse.find? (fun f => decide (f.1 = n)) with
        | some f => some (f.2.getD [])
        | none => dlookup m n := by
  induction inputs with
  | nil => intro m n; simp
  | cons f rest ih =>
    intro m n
    have hrev : (f :: rest).reverse = rest.reverse ++ [f] := by simp
    rw [List.foldl_cons, ih, hrev, List.find?_append]
    cases hfind : rest.reverse.find? (fun f => decide (f.1 = n)) with
    | some g => simp [Option.or]
    | none =>
      simp only [Option.or, List.find?_singleton]
      by_cases hfn : f.1 = n
      · simp [hfn, fdStep, dlookup_dictInsert]
      · simp [hfn, fdStep, dlookup_dictInsert]

theorem keys_foldl_mem (inputs : List (Str × Option Str)) :
    ∀ (m : List (Str × Str)) (n : Str),
      n ∈ ((inputs.foldl fdStep m).map Prod.fst) ↔
        n ∈ m.map Prod.fst ∨ n ∈ inputs.map Prod.fst := by
  induction inputs with
  | nil => intro m n; simp
  | cons f rest ih =>
    intro m n
    rw [List.foldl_cons, ih]
    simp only [fdStep, mem_keys_dictInsert, List.map_cons, List.mem_cons]
    tauto

theorem keys_foldl_nodup (inputs : List (Str × Option Str)) :
    ∀ (m : List (Str × Str)), (m.map Prod.fst).Nodup →
      ((inputs.foldl fdStep m).map Prod.fst).Nodup := by
  induction inputs with
  | nil => intro m h; simpa using h
  | cons f rest ih =>
    intro m h
    rw [List.foldl_cons]
    exact ih _ (nodup_keys_dictInsert _ _ _ h)

/-! ### Helper lemma on the row loop -/

theorem processRows_ne_nil (v : Variant) (fd : List (Str × Str)) (idx : Nat)
    (rows : List RowInput) (h : rows ≠ []) : (processRows v fd idx rows).1 ≠ [] := by
  cases rows with
  | nil => exact absurd rfl h
  | cons r rs =>
    simp only [processRows]
    cases (processRow v fd idx r).2.2 with
    | some e => simp
    | none => simp

/-! ### Claims -/

/-- C5: For every parsed page, the form-state snapshot maps exactly the
distinct names of the hidden inputs found anywhere in the document to string
values: its keys are exactly (and without duplicates) the names occurring
among the hidden inputs, a hidden input with a missing `value` attribute
contributes the empty string rather than being omitted, and when several
hidden inputs share a name the value of the last one in document order wins
(the lookup returns the last matching input's defaulted value). -/
theorem formSnapshot_distinct_names_last_wins
    (inputs : List (Str × Option Str)) (n : Str) :
    (n ∈ (buildFormData inputs).map Prod.fst ↔ n ∈ inputs.map Prod.fst)
    ∧ ((buildFormData inputs).map Prod.fst).Nodup
    ∧ dlookup (buildFormData inputs) n =
        (inputs.reverse.find? (fun f => decide (f.1 = n))).map (fun f => f.2.getD []) := by
  refine ⟨?_, ?_, ?_⟩
  · rw [buildFormData, keys_foldl_mem]
    simp
  · exact keys_foldl_nodup inputs [] (by simp)
  · rw [buildFormData, dlookup_foldl]
    cases h : inputs.reverse.find? (fun f => decide (f.1 = n)) with
    | some g => simp
    | none => simp [dlookup]

/-- C6: row extraction and row-level artifact requests happen only inside the
half-open window `fromPage <= page_index < toPage`; an out-of-window page
contributes no entries and no artifact requests but its next-page postback is
still attempted exactly as for an in-window page; an in-window page with rows
does extract entries; and with `fromPage = 2`, `toPage = 3` any rows or
requests imply `page_index = 2`. -/
theorem window_gates_rows (v : Variant) (fromPage toPage pageIndex : Nat) (inp : PageInput) :
    ((¬ (fromPage ≤ pageIndex ∧ pageIndex < toPage)) →
      (parseStep v fromPage toPage pageIndex inp).entries = []
      ∧ (parseStep v fromPage toPage pageIndex inp).reqs = []
      ∧ (parseStep v fromPage toPage pageIndex inp).outcome =
          nextPhase (buildFormData inp.hidden) inp.nextHref)
    ∧ (((parseStep v fromPage toPage pageIndex inp).entries ≠ []
        ∨ (parseStep v fromPage toPage pageIndex inp).reqs ≠ []) →
          fromPage ≤ pageIndex ∧ pageIndex < toPage)
    ∧ ((fromPage ≤ pageIndex ∧ pageIndex < toPage) → inp.rows ≠ [] →
        (parseStep v fromPage toPage pageIndex inp).entries ≠ [])
    ∧ (fromPage = 2 → toPage = 3 →
        ((parseStep v fromPage toPage pageIndex inp).entries ≠ []
          ∨ (parseStep v fromPage toPage pageIndex inp).reqs ≠ []) → pageIndex = 2) := by
  by_cases hw : fromPage ≤ pageIndex ∧ pageIndex < toPage
  · refine ⟨fun h => absurd hw h, fun _ => hw, ?_, ?_⟩
    · intro _ hrows
      have hne := processRows_ne_nil v (buildFormData inp.hidden) 1 inp.rows hrows
      simp only [parseStep, if_pos hw]
      cases hloop : (processRows v (buildFormData inp.hidden) 1 inp.rows).2.2 with
      | some e => simpa [hloop] using hne
      | none => simpa [hloop] using hne
    · rintro rfl rfl _
      omega
  · have hout : parseStep v fromPage toPage pageIndex inp =
        ⟨[], [], nextPhase (buildFormData inp.hidden) inp.nextHref⟩ := by
      simp [parseStep, if_neg hw]
    refine ⟨fun _ => by simp [hout], ?_, fun h => absurd h hw, ?_⟩
    · intro h
      rcases h with h | h <;> simp [hout] at h
    · intro _ _ h
      rcases h with h | h <;> simp [hout] at h

/-- Witness for the window theorem: out of window (`page_index = 7`,
window `[2, 3)`), the step extracts nothing, requests nothing, and still
attempts the next-page postback. -/
theorem window_gates_rows_witness :
    (parseStep .pipelines 2 3 7 pageDocOnly).entries = []
    ∧ (parseStep .pipelines 2 3 7 pageDocOnly).reqs = []
    ∧ (parseStep .pipelines 2 3 7 pageDocOnly).outcome =
        nextPhase (buildFormData pageDocOnly.hidden) pageDocOnly.nextHref :=
  (window_gates_rows .pipelines 2 3 7 pageDocOnly).1 (by omega)

/-- C9: the checksum probe emits nothing (and raises nothing) when the
designated text area is absent, and emits exactly one item carrying the
trimmed content when it is present (an lxml text node is never the empty
string, hence the hypothesis). -/
theorem checksum_probe_recovers :
    scrap_checksum none = []
    ∧ (∀ s : Str, s ≠ [] →
        scrap_checksum (some s) = [ckStrip s] ∧ (scrap_checksum (some s)).length = 1) := by
  refine ⟨rfl, fun s hs => ?_⟩
  simp [scrap_checksum, hs]

/-- Witness for the checksum theorem at a concrete text value. -/
theorem checksum_probe_recovers_witness :
    scrap_checksum (some " abc\r\n".data) = [ckStrip " abc\r\n".data]
    ∧ (scrap_checksum (some " abc\r\n".data)).length = 1 :=
  checksum_probe_recovers.2 " abc\r\n".data (by decide)

/-- C10 counterexample: in a row whose document cell has no anchor text (and
no href) but carries a CSS class, the emitted `pdf` sub-record has the class
as its name, not the empty string the claim requires for a missing anchor
text. -/
theorem subrecord_name_not_empty_counterexample :
    (mkEntry 1 rowClassOnly).pdf = ⟨"docLink".data, []⟩
    ∧ (mkEntry 1 rowClassOnly).pdf.name ≠ [] := by
  constructor
  · decide
  · decide

/-- C10 (amended): every metadata entry always carries both the `pdf` and the
`excel` sub-record — the row loop emits `mkEntry` whole for every row, never
omitting a side; a missing link yields an empty argument list, and a missing
anchor text together with a missing class yields an empty-string name. -/
theorem subrecords_always_present (v : Variant) (fd : List (Str × Str))
    (idx : Nat) (row : RowInput) :
    (processRow v fd idx row).1 = mkEntry idx row
    ∧ (row.pdfCell.href = none → (mkEntry idx row).pdf.link_args = [])
    ∧ (row.pdfCell.text = none → row.pdfCell.cls = none → (mkEntry idx row).pdf.name = [])
    ∧ (row.excelCell.href = none → (mkEntry idx row).excel.link_args = [])
    ∧ (row.excelCell.text = none → row.excelCell.cls = none →
        (mkEntry idx row).excel.name = []) := by
  refine ⟨?_, ?_, ?_, ?_, ?_⟩
  · simp only [processRow]
    cases v <;>
      cases h : (condReq (normLink row.pdfCell.href).isSome
          (extract_link_args (normLink row.excelCell.href))
          (get_file_name row.excelCell.text row.excelCell.cls) fd).2 <;>
      cases h2 : (condReq (normLink row.excelCell.href).isSome
          (extract_link_args (normLink row.excelCell.href))
          (get_file_name row.excelCell.text row.excelCell.cls) fd).2 <;>
      simp [h, h2]
  · intro h
    simp [mkEntry, h, normLink, extract_link_args]
  · intro h1 h2
    simp [mkEntry, h1, h2, get_file_name, pyStrip, stripSet]
  · intro h
    simp [mkEntry, h, normLink, extract_link_args]
  · intro h1 h2
    simp [mkEntry, h1, h2, get_file_name, pyStrip, stripSet]

/-- Witness for the sub-record theorem at a fully empty row. -/
theorem subrecords_always_present_witness :
    (processRow .pipelines [] 1 rowEmpty).1 = mkEntry 1 rowEmpty
    ∧ (mkEntry 1 rowEmpty).pdf.link_args = []
    ∧ (mkEntry 1 rowEmpty).pdf.name = []
    ∧ (mkEntry 1 rowEmpty).excel.link_args = []
    ∧ (mkEntry 1 rowEmpty).excel.name = [] := by
  have h := subrecords_always_present .pipelines [] 1 rowEmpty
  exact ⟨h.1, h.2.1 rfl, h.2.2.1 rfl rfl, h.2.2.2.1 rfl, h.2.2.2.2 rfl rfl⟩

/-- C1: evaluation at the failing input.  On an in-window row carrying only a
document postback (no spreadsheet anchor), the `pipelines.py` variant —
which guards each download block on one artifact's link but submits the
*other* artifact's `(target, argument)` pair under the other artifact's name
— builds the request from the spreadsheet's empty argument list and dies
with `IndexError`, issuing no request carrying the document's own pair; the
`bwpipelines.py` variant on the same page issues exactly the document's own
postback pair under the document's own display name and then the next-page
postback. -/
theorem pipelines_crossed_guard_eval :
    parseStep .pipelines 2 3 2 pageDocOnly =
      ⟨[mkEntry 1 rowDocOnly], [], .crash .indexError⟩
    ∧ parseStep .bw 2 3 2 pageDocOnly =
      ⟨[mkEntry 1 rowDocOnly],
       [⟨setEvent (buildFormData pageDocOnly.hidden) "ctl02$lnkDoc".data [],
         "Report 1".data⟩],
       .nextReq (setEvent (buildFormData pageDocOnly.hidden)
         "dgITMatrix$ctl01".data "Page$2".data)⟩ := by
  constructor
  · decide
  · decide

/-- C2: whenever the fetched page has no recognizable "next" anchor, `parse`
does not terminate cleanly: `next_page_args` is empty and indexing it raises
an uncaught `IndexError` (the crawl stops by crashing, for any window and
any `to_page`); evaluated concretely for both variants at their respective
initial page indices and a large `to_page`. -/
theorem no_next_anchor_crashes :
    (∀ (v : Variant) (fromPage toPage pageIndex : Nat) (inp : PageInput),
      inp.nextHref = none →
        ∃ e, (parseStep v fromPage toPage pageIndex inp).outcome = Outcome.crash e)
    ∧ (parseStep .pipelines 2 99 0 pageNoNext).outcome = .crash .indexError
    ∧ (parseStep .bw 2 99 1 pageNoNext).outcome = .crash .indexError := by
  refine ⟨?_, by decide, by decide⟩
  intro v fromPage toPage pageIndex inp hnone
  have hnp : nextPhase (buildFormData inp.hidden) inp.nextHref = .crash .indexError := by
    rw [hnone]
    rfl
  by_cases hw : fromPage ≤ pageIndex ∧ pageIndex < toPage
  · simp only [parseStep, if_pos hw]
    cases hloop : (processRows v (buildFormData inp.hidden) 1 inp.rows).2.2 with
    | some e => exact ⟨e, by simp [hloop]⟩
    | none => exact ⟨.indexError, by simp [hloop, hnp]⟩
  · exact ⟨.indexError, by simp [parseStep, if_neg hw, hnp]⟩

/-- Witness for the no-next-anchor theorem at a concrete page. -/
theorem no_next_anchor_crashes_witness :
    ∃ e, (parseStep .bw 5 7 6 pageNoNext).outcome = Outcome.crash e :=
  no_next_anchor_crashes.1 .bw 5 7 6 pageNoNext rfl

/-! ### Helper lemmas on the postback argument parser -/

theorem searchGroup_hit (pre post body : Str) :
    searchGroup pre post (pre ++ (body ++ post)) = some body := by
  unfold searchGroup
  rw [afterFirst_on_self]
  show (beforeLast post (body ++ post)) = some body
  exact beforeLast_append post body

theorem containsSub_false_afterFirst {pat s : Str} (h : containsSub pat s = false) :
    afterFirst pat s = none := by
  cases ha : afterFirst pat s with
  | none => rfl
  | some t =>
    rw [containsSub, ha] at h
    simp at h

theorem extract_opt_shape (body : Str) :
    extract_link_args (some (OPTPRE ++ (body ++ OPTPOST))) =
      (splitOnChar ',' body).map stripQS := by
  have hne : OPTPRE ++ (body ++ OPTPOST) ≠ [] := append_ne_nil_left OPTPRE_ne_nil
  simp only [extract_link_args, if_neg hne, searchGroup_hit]

theorem extract_do_shape (body : Str)
    (hopt : containsSub OPTPRE (DOPRE ++ (body ++ CLOSEP)) = false) :
    extract_link_args (some (DOPRE ++ (body ++ CLOSEP))) =
      (splitOnChar ',' body).map stripQS := by
  have hne : DOPRE ++ (body ++ CLOSEP) ≠ [] := append_ne_nil_left DOPRE_ne_nil
  have hAf := containsSub_false_afterFirst hopt
  have hfirst : searchGroup OPTPRE OPTPOST (DOPRE ++ (body ++ CLOSEP)) = none := by
    simp [searchGroup, hAf]
  simp only [extract_link_args, if_neg hne, hfirst, searchGroup_hit]

theorem extract_unrelated (s : Str) (h1 : containsSub OPTPRE s = false)
    (h2 : containsSub DOPRE s = false) : extract_link_args (some s) = [] := by
  by_cases hs : s = []
  · simp [extract_link_args, hs]
  · have a1 := containsSub_false_afterFirst h1
    have a2 := containsSub_false_afterFirst h2
    simp [extract_link_args, hs, searchGroup, a1, a2]

theorem okC_no_sep {t : Str} (h : t.all okC = true) :
    t.all (fun c => decide (c ≠ ',')) = true := by
  refine all_imp ?_ h
  intro c hc
  simp only [okC, decide_eq_true_eq] at hc
  simp [hc.1]

theorem okC_no_strip {t : Str} (h : t.all okC = true) :
    t.all (fun c => !(stripP c)) = true := by
  refine all_imp ?_ h
  intro c hc
  simp only [okC, decide_eq_true_eq] at hc
  simp [stripP, hc.2.1, hc.2.2.1, hc.2.2.2]

theorem stripQS_id {t : Str} (h : t.all okC = true) : stripQS t = t := by
  have h2 := strip_wrap (p := stripP) [] t [] (by decide) (by decide) (okC_no_strip h)
  simpa using h2

theorem stripQS_dquote {t : Str} (h : t.all okC = true) :
    stripQS ('"' :: (t ++ ['"'])) = t :=
  strip_wrap ['"'] t ['"'] (by decide) (by decide) (okC_no_strip h)

theorem stripQS_spdquote {t : Str} (h : t.all okC = true) :
    stripQS (' ' :: '"' :: (t ++ ['"'])) = t :=
  strip_wrap [' ', '"'] t ['"'] (by decide) (by decide) (okC_no_strip h)

theorem stripQS_squote {t : Str} (h : t.all okC = true) :
    stripQS ('\'' :: (t ++ ['\''])) = t :=
  strip_wrap ['\''] t ['\''] (by decide) (by decide) (okC_no_strip h)

theorem all_no_sep_dquote {t : Str} (h : t.all okC = true) :
    ('"' :: (t ++ ['"'])).all (fun c => decide (c ≠ ',')) = true := by
  rw [List.all_eq_true]
  intro c hc
  simp only [List.mem_cons, List.mem_append, List.not_mem_nil, or_false] at hc
  rcases hc with rfl | hc | rfl
  · decide
  · rw [List.all_eq_true] at h
    have := h c hc
    simp only [okC, decide_eq_true_eq] at this
    simp [this.1]
  · decide

theorem all_no_sep_squote {t : Str} (h : t.all okC = true) :
    ('\'' :: (t ++ ['\''])).all (fun c => decide (c ≠ ',')) = true := by
  rw [List.all_eq_true]
  intro c hc
  simp only [List.mem_cons, List.mem_append, List.not_mem_nil, or_false] at hc
  rcases hc with rfl | hc | rfl
  · decide
  · rw [List.all_eq_true] at h
    have := h c hc
    simp only [okC, decide_eq_true_eq] at this
    simp [this.1]
  · decide

/-- C3 counterexample: on a recognized direct call with a single usable token,
the parser returns the one-element list of that token — it does not fill the
missing argument slot with an empty string (the result does not have two
slots). -/
theorem single_token_counterexample :
    extract_link_args (some (mkDo1 "x".data)) = ["x".data]
    ∧ (extract_link_args (some (mkDo1 "x".data))).length ≠ 2 := by
  constructor
  · decide
  · decide

/-- C3 (amended): when the call shape is recognized but only one usable token
remains after stripping, the parser does not fail, but it returns just that
token — a list of length one, with no empty-string padding of the missing
slot (downstream indexing of slot 1 is what raises `IndexError`). -/
theorem single_token_not_padded (t : Str) (ht : t.all okC = true)
    (hopt : containsSub OPTPRE (mkDo1 t) = false) :
    extract_link_args (some (mkDo1 t)) = [t]
    ∧ (extract_link_args (some (mkDo1 t))).length = 1 := by
  have h1 : extract_link_args (some (mkDo1 t)) = (splitOnChar ',' t).map stripQS :=
    extract_do_shape t hopt
  rw [h1, splitOnChar_no_sep (okC_no_sep ht)]
  simp [stripQS_id ht]

/-- Witness for the single-token theorem at the token `nxt`. -/
theorem single_token_not_padded_witness :
    extract_link_args (some (mkDo1 "nxt".data)) = ["nxt".data]
    ∧ (extract_link_args (some (mkDo1 "nxt".data))).length = 1 :=
  single_token_not_padded "nxt".data (by decide) (by decide)

/-- C4 counterexample: on a realistic options-object call with seven
constructor arguments, the parser returns all seven stripped tokens, not
exactly the first two. -/
theorem options_full_list_counterexample :
    extract_link_args (some (mkOpt "a".data "b".data)) ≠ ["a".data, "b".data]
    ∧ extract_link_args (some (mkOpt "a".data "b".data)) =
        ["a".data, "b".data, "true".data, [], [], "false".data, "true".data] := by
  constructor
  · decide
  · decide

/-- C4 (amended): the parser returns the full comma-split, quote/whitespace-
stripped argument list of the first matching shape.  On an options-object
call its first two elements are the first two constructor arguments stripped;
on a string matching only the direct shape it returns that call's stripped
arguments; the options shape is checked first and takes precedence when both
occur in one string; and empty, absent or unrelated strings yield the empty
list (the code's representation of the empty instruction), never an error. -/
theorem postback_parser_shapes :
    (∀ t a : Str, t.all okC = true → a.all okC = true →
      extract_link_args (some (mkOpt t a)) =
        [t, a, "true".data, [], [], "false".data, "true".data])
    ∧ (∀ t a : Str, t.all okC = true → a.all okC = true →
        containsSub OPTPRE (mkDo t a) = false →
        extract_link_args (some (mkDo t a)) = [t, a])
    ∧ extract_link_args (some (mkOpt "T".data "A".data ++ mkDo "x".data "y".data)) =
        ["T".data, "A".data, "true".data, [], [], "false".data, "true".data]
    ∧ extract_link_args none = []
    ∧ extract_link_args (some []) = []
    ∧ (∀ s : Str, containsSub OPTPRE s = false → containsSub DOPRE s = false →
        extract_link_args (some s) = []) := by
  refine ⟨?_, ?_, by decide, rfl, rfl, extract_unrelated⟩
  · intro t a ht ha
    have h1 : extract_link_args (some (mkOpt t a)) =
        (splitOnChar ',' (optBody t a)).map stripQS := extract_opt_shape (optBody t a)
    rw [h1]
    have hsep2 : (' ' :: '"' :: (a ++ ['"'])).all (fun c => decide (c ≠ ',')) = true := by
      have h' : ('"' :: (a ++ ['"'])).all (fun c => decide (c ≠ ',')) = true :=
        all_no_sep_dquote ha
      rw [List.all_cons, h']
      decide
    have h2 : splitOnChar ',' (optBody t a) =
        ('"' :: (t ++ ['"'])) :: (' ' :: '"' :: (a ++ ['"'])) ::
          splitOnChar ',' " true, \"\", \"\", false, true".data := by
      show splitOnChar ',' (('"' :: (t ++ ['"'])) ++ ',' :: ((' ' :: '"' :: (a ++ ['"'])) ++
        ',' :: " true, \"\", \"\", false, true".data)) = _
      rw [splitOnChar_append _ (all_no_sep_dquote ht), splitOnChar_append _ hsep2]
    rw [h2]
    simp only [List.map_cons]
    have e1 : stripQS ('"' :: (t ++ ['"'])) = t := stripQS_dquote ht
    have e2 : stripQS (' ' :: '"' :: (a ++ ['"'])) = a := stripQS_spdquote ha
    rw [e1, e2]
    have e3 : (splitOnChar ',' " true, \"\", \"\", false, true".data).map stripQS =
        ["true".data, [], [], "false".data, "true".data] := by decide
    rw [e3]
  · intro t a ht ha hopt
    have h1 : extract_link_args (some (mkDo t a)) =
        (splitOnChar ',' (('\'' :: (t ++ ['\''])) ++ ',' :: ('\'' :: (a ++ ['\''])))).map
          stripQS := extract_do_shape _ hopt
    have h2 : splitOnChar ',' (('\'' :: (t ++ ['\''])) ++ ',' :: ('\'' :: (a ++ ['\'']))) =
        ('\'' :: (t ++ ['\''])) :: [('\'' :: (a ++ ['\'']))] := by
      rw [splitOnChar_append _ (all_no_sep_squote ht),
        splitOnChar_no_sep (all_no_sep_squote ha)]
    rw [h1, h2]
    simp only [List.map_cons, List.map_nil]
    rw [stripQS_squote ht, stripQS_squote ha]

/-- Witness for the parser-shape theorem on a concrete options call. -/
theorem postback_parser_shapes_witness :
    extract_link_args (some (mkOpt "dgTarget".data "Page$3".data)) =
      ["dgTarget".data, "Page$3".data, "true".data, [], [], "false".data, "true".data] :=
  postback_parser_shapes.1 "dgTarget".data "Page$3".data (by decide) (by decide)

/-- C7 counterexample: with no `Content-Disposition` and a caller-supplied
*empty* fallback name, the resolved filename stays empty — the fixed default
token is not applied, contradicting the claimed step (3). -/
theorem empty_fallback_counterexample :
    download_file_name [] (some []) [] = ([] : Str)
    ∧ download_file_name [] (some []) [] ≠ DEFAULTNAME := by
  constructor
  · decide
  · decide

/-- C7 (amended): filename resolution order of the harvester — (1) when the
`Content-Disposition` header contains the literal substring `filename=` and
the filename regex captures a value, that value is used; (2) otherwise the
caller-supplied fallback is used verbatim (even when it is empty); (3) the
fixed default token applies only when the caller supplied no fallback at
all; the resolved name is then unconditionally sanitized; and the header
`attachment; filename="a/b:c.xlsx"` with no fallback yields `a_b_c.xlsx`. -/
theorem filename_resolution :
    download_file_name cdExample none [] = "a_b_c.xlsx".data
    ∧ (∀ (cd : Str) (meta : Option Str) (ct : Str), containsSub FILENAMEEQ cd = false →
        download_file_name cd meta ct = applyExtension (sanitize (meta.getD DEFAULTNAME)) ct)
    ∧ (∀ (cd : Str) (meta : Option Str) (ct g : Str), containsSub FILENAMEEQ cd = true →
        cdCapture cd = some g → g ≠ [] →
        download_file_name cd meta ct = applyExtension (sanitize g) ct)
    ∧ (∀ (cd : Str) (meta : Option Str) (ct : Str),
        download_file_name cd meta ct = applyExtension (sanitize (resolveRaw cd meta)) ct) := by
  refine ⟨by decide, ?_, ?_, fun cd meta ct => rfl⟩
  · intro cd meta ct h
    simp [download_file_name, preExtName, resolveRaw, h]
  · intro cd meta ct g h1 h2 h3
    simp [download_file_name, preExtName, resolveRaw, h1, h2, h3]

/-- Witness for the filename-resolution theorem: no header at all and no
fallback resolves to the sanitized default token. -/
theorem filename_resolution_witness :
    download_file_name [] none [] =
      applyExtension (sanitize ((none : Option Str).getD DEFAULTNAME)) [] :=
  filename_resolution.2.1 [] none [] (by decide)

/-- C8: extension inference runs only when the sanitized name has no
extension — a name with an extension is returned unchanged whatever the
`Content-Type`; an extensionless name gets the guessed extension of the
parameter-stripped type token appended when a mapping is known and is left
unchanged (without error) when none is; and no `Content-Disposition`,
fallback `Report` and `Content-Type: application/pdf` yield `Report.pdf`. -/
theorem extension_inference :
    (∀ nm ct : Str, extOf nm ≠ [] → applyExtension nm ct = nm)
    ∧ (∀ nm ct : Str, extOf nm = [] →
        applyExtension nm ct = nm ++ (mimetypes_guess_extension (typeToken ct)).getD [])
    ∧ download_file_name [] (some "Report".data) "application/pdf".data = "Report.pdf".data := by
  refine ⟨?_, ?_, by decide⟩
  · intro nm ct h
    simp [applyExtension, h]
  · intro nm ct h
    simp only [applyExtension, if_pos h]
    cases hm : mimetypes_guess_extension (typeToken ct) with
    | some e => simp
    | none => simp

/-- Witness for the extension-inference theorem at the `Report` example. -/
theorem extension_inference_witness :
    applyExtension "Report".data "application/pdf".data =
      "Report".data ++ (mimetypes_guess_extension (typeToken "application/pdf".data)).getD [] :=
  extension_inference.2.1 "Report".data "application/pdf".data (by decide)
